import Mathlib

/-!
Verification of the MCMC sampling-engine specification distilled from the
`bayes_mixer_2023` tutorial material (notebooks `mcmc.ipynb`, `pymc_intro.ipynb`
and the slide deck `slides/mcmc.md`).

The repository contains no executable sampler; the notebooks state the
diagnostic formulas (potential scale reduction, BFMI), the slides state the
Metropolis accept/reject rule, and the prose describes step-method competence,
auto-transformation and the error-handling policy.  Where a formula or rule is
written out in the source material we embed it directly; where the engine
behaviour is only described, the definition is modelled from the spec and its
doc comment says so.

All arithmetic is over `ℚ` (exact), except the auto-transformation section
which needs `Real.exp`.
-/

namespace BayesMixer

/-! ### Diagnostics: potential scale reduction (mcmc.ipynb, "Potential Scale Reduction") -/

/-- Arithmetic mean of a list of rationals (0 on the empty list). -/
def mean (xs : List ℚ) : ℚ := xs.sum / xs.length

/-- Within-chain sample variance with the `1/(n-1)` normalisation used in the
notebook's `W` formula. -/
def sampleVar (xs : List ℚ) : ℚ :=
  (xs.map (fun x => (x - mean xs) ^ 2)).sum / ((xs.length : ℚ) - 1)

/-- Length `n` of a (pseudo-)chain: all chains in an ensemble share it, so the
first chain's length is taken. -/
def chainLen (chains : List (List ℚ)) : ℕ := (chains.head?.map List.length).getD 0

/-- Between-chain variance `B = n/(m-1) · Σ_j (θ̄_j − θ̄_..)²` from the
notebook. -/
def Bstat (chains : List (List ℚ)) : ℚ :=
  let n : ℚ := chainLen chains
  let means := chains.map mean
  (n / ((chains.length : ℚ) - 1)) * ((means.map (fun x => (x - mean means) ^ 2)).sum)

/-- Within-chain variance `W = (1/m) Σ_j s_j²` from the notebook. -/
def Wstat (chains : List (List ℚ)) : ℚ :=
  (chains.map sampleVar).sum / (chains.length : ℚ)

/-- Marginal posterior variance estimate `V̂ = (n-1)/n · W + B/n` from the
notebook. -/
def varHat (chains : List (List ℚ)) : ℚ :=
  let n : ℚ := chainLen chains
  ((n - 1) / n) * Wstat chains + Bstat chains / n

/-- Square of the potential scale reduction `R̂² = V̂ / W` (the notebook takes
the square root; working with the square keeps the arithmetic exact, and
`R̂ = 1` iff `R̂² = 1`). -/
def rhatSq (chains : List (List ℚ)) : ℚ := varHat chains / Wstat chains

/-- Split one chain's draws into first and second half (the split-R-hat
pseudo-chains described in the spec). -/
def splitHalves (xs : List ℚ) : List (List ℚ) :=
  [xs.take (xs.length / 2), xs.drop (xs.length / 2)]

/-- Split-R-hat squared: each chain is halved and `rhatSq` is computed over the
resulting `2C` pseudo-chains. -/
def splitRhatSq (chains : List (List ℚ)) : ℚ :=
  rhatSq (chains.map splitHalves).flatten

/-! ### Diagnostics: BFMI (mcmc.ipynb, "Bayesian Fraction of Missing Information") -/

/-- Successive differences `E_n − E_{n−1}` of an energy trace. -/
def energyDiffs (E : List ℚ) : List ℚ :=
  (E.zip E.tail).map (fun p => p.2 - p.1)

/-- Numerator `Σ (E_n − E_{n−1})²` of the notebook's BFMI estimator. -/
def bfmiNum (E : List ℚ) : ℚ := ((energyDiffs E).map (fun d => d ^ 2)).sum

/-- Denominator `Σ (E_n − Ē)²` of the notebook's BFMI estimator. -/
def bfmiDen (E : List ℚ) : ℚ := (E.map (fun e => (e - mean E) ^ 2)).sum

/-- The notebook's BFMI estimator
`B̂FMI = Σ (E_n − E_{n−1})² / Σ (E_n − Ē)²`. -/
def bfmi (E : List ℚ) : ℚ := bfmiNum E / bfmiDen E

/-- Population variance `(1/N) Σ (x − x̄)²`, used to state the spec's
`Var(ΔE)/Var(E)` reading of BFMI. -/
def popVar (xs : List ℚ) : ℚ :=
  (xs.map (fun x => (x - mean xs) ^ 2)).sum / (xs.length : ℚ)

/-- The BFMI formula as the spec words it: `Var(ΔE) / Var(E)`.  Kept separate
from `bfmi` (the notebook's estimator) so the two can be compared. -/
def bfmiSpecRatio (E : List ℚ) : ℚ := popVar (energyDiffs E) / popVar E

/-- Rule-of-thumb warning flag: BFMI below 0.3 is reported, never raised. -/
def bfmiWarning (E : List ℚ) : Bool := decide (bfmi E < 3 / 10)

/-! ### Helper lemmas for the variance identities -/

lemma sum_map_sub_sq (xs : List ℚ) (c : ℚ) :
    (xs.map (fun x => (x - c) ^ 2)).sum
      = (xs.map (fun x => x ^ 2)).sum - 2 * c * xs.sum + (xs.length : ℚ) * c ^ 2 := by
  induction xs with
  | nil => simp
  | cons y ys ih =>
    simp only [List.map_cons, List.sum_cons, List.length_cons, ih]
    push_cast
    ring

lemma sum_sq_eq_popVar (xs : List ℚ) :
    (xs.map (fun x => x ^ 2)).sum = (xs.length : ℚ) * (popVar xs + (mean xs) ^ 2) := by
  rcases eq_or_ne xs [] with h | h
  · simp [h, popVar, mean]
  · have hn : (xs.length : ℚ) ≠ 0 := by
      have : xs.length ≠ 0 := fun hc => h (List.length_eq_zero.mp hc)
      exact_mod_cast this
    have hsum : xs.sum = (xs.length : ℚ) * mean xs := by
      rw [mean]; field_simp
    rw [popVar, sum_map_sub_sq xs (mean xs), hsum]
    field_simp
    ring

lemma sum_map_sq_nonneg (xs : List ℚ) (f : ℚ → ℚ) :
    0 ≤ (xs.map (fun x => (f x) ^ 2)).sum := by
  apply List.sum_nonneg
  intro y hy
  rcases List.mem_map.mp hy with ⟨x, _, rfl⟩
  positivity

end BayesMixer

namespace BayesMixer

/-! ### Claim C1: split-R-hat on two identical chains -/

/-- Claim C1 counterexample: split-R-hat squared on two identical copies of the
draw sequence `[0,1,2,3]` is `19/6`, far from `1` (so `R̂ = sqrt(19/6) ≈ 1.78`):
splitting makes the two halves distinct pseudo-chains with different means, so
the between-chain variance `B` is not `0`, and the claim's conclusion fails. -/
theorem splitRhat_identical_chains_ne_one :
    splitRhatSq [[0, 1, 2, 3], [0, 1, 2, 3]] = 19 / 6 ∧ (19 / 6 : ℚ) ≠ 1 := by
  constructor
  · norm_num [splitRhatSq, splitHalves, rhatSq, varHat, Bstat, Wstat, chainLen,
      sampleVar, mean]
  · norm_num

/-- Claim C1 (amended): on two identical chains the between-chain variance `B`
of the UNSPLIT R-hat is `0`, and then `R̂² = (n-1)/n`: within `1/n` of `1` but
strictly below `1` for every finite `n`, never equal to `1`. -/
theorem rhat_identical_chains (xs : List ℚ) (hn : 2 ≤ xs.length)
    (hv : sampleVar xs ≠ 0) :
    Bstat [xs, xs] = 0 ∧
    rhatSq [xs, xs] = ((xs.length : ℚ) - 1) / (xs.length : ℚ) ∧
    rhatSq [xs, xs] < 1 := by
  have hn0 : (0 : ℚ) < (xs.length : ℚ) := by
    have : 0 < xs.length := lt_of_lt_of_le (by norm_num) hn
    exact_mod_cast this
  have hB : Bstat [xs, xs] = 0 := by simp [Bstat, mean, chainLen]
  have hW : Wstat [xs, xs] = sampleVar xs := by simp [Wstat]
  have heq : rhatSq [xs, xs] = ((xs.length : ℚ) - 1) / (xs.length : ℚ) := by
    simp only [rhatSq, varHat, hB, hW, chainLen, List.head?, Option.map, Option.getD]
    field_simp
    ring
  refine ⟨hB, heq, ?_⟩
  rw [heq, div_lt_one hn0]
  linarith

/-- Witness for `rhat_identical_chains` at the concrete draw sequence
`[0,1,2,3]`: `R̂² = 3/4 < 1`. -/
theorem rhat_identical_chains_witness :
    Bstat [[0, 1, 2, 3], [0, 1, 2, 3]] = 0 ∧
    rhatSq [[0, 1, 2, 3], [0, 1, 2, 3]]
      = ((([0, 1, 2, 3] : List ℚ).length : ℚ) - 1) / (([0, 1, 2, 3] : List ℚ).length : ℚ) ∧
    rhatSq [[0, 1, 2, 3], [0, 1, 2, 3]] < 1 :=
  rhat_identical_chains [0, 1, 2, 3] (by norm_num) (by norm_num [sampleVar, mean])

/-! ### Claim C4: BFMI formula and warning threshold -/

/-- Claim C4 counterexample: the notebook's BFMI estimator on the energy trace
`[0,1,3]` is `15/14`, while the spec's `Var(ΔE)/Var(E)` is `9/56`; the two
quantities differ, so the claim's equation fails on the code's formula. -/
theorem bfmi_ne_specRatio :
    bfmi [0, 1, 3] = 15 / 14 ∧ bfmiSpecRatio [0, 1, 3] = 9 / 56 ∧
    (15 / 14 : ℚ) ≠ (9 / 56 : ℚ) := by
  refine ⟨?_, ?_, by norm_num⟩
  · norm_num [bfmi, bfmiNum, bfmiDen, energyDiffs, mean]
  · norm_num [bfmiSpecRatio, popVar, energyDiffs, mean]

/-- Claim C4 (amended): per chain, BFMI is the ratio of the SUM of squared
successive energy differences to the SUM of squared deviations of the energy
from its mean; in variance language `bfmi · Σ(E−Ē)² = |ΔE| · (Var(ΔE) + (mean ΔE)²)`
(the differences are not centred), the denominator is `N · Var(E)`, the value is
nonnegative, and a value below `0.3` sets the warning flag (a `Bool`, never an
error). -/
theorem bfmi_formula (E : List ℚ) (hden : bfmiDen E ≠ 0) :
    bfmi E * bfmiDen E
      = ((energyDiffs E).length : ℚ)
          * (popVar (energyDiffs E) + (mean (energyDiffs E)) ^ 2) ∧
    bfmiDen E = (E.length : ℚ) * popVar E ∧
    0 ≤ bfmi E ∧
    (bfmiWarning E = true ↔ bfmi E < 3 / 10) := by
  have hlen : (E.length : ℚ) ≠ 0 := by
    have : E ≠ [] := by
      intro h
      exact hden (by simp [h, bfmiDen])
    have : E.length ≠ 0 := fun hc => this (List.length_eq_zero.mp hc)
    exact_mod_cast this
  refine ⟨?_, ?_, ?_, by simp [bfmiWarning]⟩
  · rw [bfmi, div_mul_cancel₀ _ hden, bfmiNum, sum_sq_eq_popVar]
  · rw [bfmiDen, popVar]
    field_simp
  · have hnum : 0 ≤ bfmiNum E := sum_map_sq_nonneg _ _
    have hd : 0 ≤ bfmiDen E := sum_map_sq_nonneg _ _
    exact div_nonneg hnum hd

/-- Witness for `bfmi_formula` at the concrete energy trace `[0,1,3]`. -/
theorem bfmi_formula_witness :
    0 ≤ bfmi [0, 1, 3] ∧ (bfmiWarning [0, 1, 3] = true ↔ bfmi [0, 1, 3] < 3 / 10) :=
  (bfmi_formula [0, 1, 3] (by norm_num [bfmiDen, mean])).2.2

end BayesMixer

namespace BayesMixer

/-! ### Step-method core (slides/mcmc.md "Metropolis sampling", spec §4.1)

Modelled from the spec and the slide pseudocode: the engine itself is not
implemented in the repository, only described.  Log-densities take values in
`LogDensity`, whose `negInf` constructor is the `-infinity` the Target Oracle
contract returns for out-of-support inputs. -/

/-- A log-density value: either `-infinity` (out of support) or a finite
value. -/
inductive LogDensity (α : Type) where
  | negInf : LogDensity α
  | finite : α → LogDensity α
deriving DecidableEq, Repr

/-- One recorded draw: the accepted-or-retained state plus metadata (acceptance
and divergence flags), per the spec's Draw data model. -/
structure Draw (σ : Type) where
  state : σ
  accepted : Bool
  divergent : Bool
deriving DecidableEq, Repr

/-- Modelled from the spec: `acceptance_log_ratio = log π(candidate) − log π(current)`
(symmetric proposal cancels); a non-finite log-density at the proposal is
treated as a ratio of `-infinity`. -/
def acceptanceLogRatio {σ : Type} (logπ : σ → LogDensity ℚ) (current candidate : σ) :
    LogDensity ℚ :=
  match logπ candidate, logπ current with
  | .finite c, .finite x => .finite (c - x)
  | _, _ => .negInf

/-- Whether `log u < acceptance_log_ratio`; a `-infinity` ratio never accepts. -/
def loguLtRatio (logu : ℚ) : LogDensity ℚ → Bool
  | .negInf => false
  | .finite r => decide (logu < r)

/-- Modelled from the spec: the accept decision of one Metropolis step, taking
the logarithm of the uniform variate `u` as its random input. -/
def acceptMH {σ : Type} (logπ : σ → LogDensity ℚ) (current candidate : σ)
    (logu : ℚ) : Bool :=
  loguLtRatio logu (acceptanceLogRatio logπ current candidate)

/-- Modelled from the spec: `step(state, rng) -> new_state` — accept the
candidate iff `log u < acceptance_log_ratio`, else retain the current state. -/
def metropolisStep {σ : Type} (logπ : σ → LogDensity ℚ) (current candidate : σ)
    (logu : ℚ) : σ :=
  if acceptMH logπ current candidate logu then candidate else current

/-- Modelled from the spec: one step appends exactly one Draw to the
append-only Trace — a rejection still records the retained state. -/
def recordStep {σ : Type} (logπ : σ → LogDensity ℚ) (trace : List (Draw σ))
    (current candidate : σ) (logu : ℚ) : List (Draw σ) :=
  trace ++ [⟨metropolisStep logπ current candidate logu,
            acceptMH logπ current candidate logu, false⟩]

/-- Modelled from the notebook (`pm.logp(sigma, -1)` evaluates to `-inf`): the
half-normal log-density shape, `-infinity` below `0` and finite otherwise. -/
def halfNormalLogp (x : ℚ) : LogDensity ℚ :=
  if x < 0 then .negInf else .finite (-(x ^ 2) / 2)

/-! ### Claim C3: accept iff `log u < acceptance_log_ratio`; one Draw per step -/

/-- Claim C3: for every chain state, candidate and uniform variate `u ∈ (0,1]`
(given by its logarithm `logu ≤ 0`), the step accepts iff
`log u < acceptance_log_ratio`, returning the candidate on acceptance and the
current state otherwise, and in both cases exactly one Draw — holding the
retained state — is appended to the Trace. -/
theorem metropolis_step_accept_iff {σ : Type} (logπ : σ → LogDensity ℚ)
    (current candidate : σ) (logu : ℚ) (trace : List (Draw σ))
    (hu : logu ≤ 0) :
    (acceptMH logπ current candidate logu = true ↔
      loguLtRatio logu (acceptanceLogRatio logπ current candidate) = true) ∧
    (acceptMH logπ current candidate logu = true →
      metropolisStep logπ current candidate logu = candidate) ∧
    (acceptMH logπ current candidate logu = false →
      metropolisStep logπ current candidate logu = current) ∧
    (recordStep logπ trace current candidate logu).length = trace.length + 1 ∧
    (recordStep logπ trace current candidate logu).getLast?
      = some ⟨metropolisStep logπ current candidate logu,
              acceptMH logπ current candidate logu, false⟩ := by
  refine ⟨Iff.rfl, ?_, ?_, ?_, ?_⟩
  · intro h; simp [metropolisStep, h]
  · intro h; simp [metropolisStep, h]
  · simp [recordStep]
  · simp [recordStep]

/-- Witness for `metropolis_step_accept_iff`: standard-normal-shaped target on
`ℚ`, current state `0`, candidate `1`, `log u = -1`. -/
theorem metropolis_step_accept_iff_witness :
    (acceptMH halfNormalLogp (0 : ℚ) 1 (-1) = true ↔
      loguLtRatio (-1) (acceptanceLogRatio halfNormalLogp (0 : ℚ) 1) = true) ∧
    (acceptMH halfNormalLogp (0 : ℚ) 1 (-1) = true →
      metropolisStep halfNormalLogp (0 : ℚ) 1 (-1) = 1) ∧
    (acceptMH halfNormalLogp (0 : ℚ) 1 (-1) = false →
      metropolisStep halfNormalLogp (0 : ℚ) 1 (-1) = 0) ∧
    (recordStep halfNormalLogp [] (0 : ℚ) 1 (-1)).length
      = ([] : List (Draw ℚ)).length + 1 ∧
    (recordStep halfNormalLogp [] (0 : ℚ) 1 (-1)).getLast?
      = some ⟨metropolisStep halfNormalLogp (0 : ℚ) 1 (-1),
              acceptMH halfNormalLogp (0 : ℚ) 1 (-1), false⟩ :=
  metropolis_step_accept_iff halfNormalLogp 0 1 (-1) [] (by norm_num)

/-! ### Claim C5: out-of-support inputs and non-finite proposals -/

/-- Claim C5: the half-normal log-density returns `-infinity` (a value, not an
exception) on every out-of-support input, and for every proposal whose
log-density is non-finite the acceptance log ratio is `-infinity`, the proposal
is rejected, the current state is retained, and one Draw is still appended so
sampling continues. -/
theorem out_of_support_rejected {σ : Type} (logπ : σ → LogDensity ℚ)
    (current candidate : σ) (logu : ℚ) (trace : List (Draw σ))
    (hcand : logπ candidate = .negInf) :
    (∀ x : ℚ, x < 0 → halfNormalLogp x = .negInf) ∧
    acceptanceLogRatio logπ current candidate = .negInf ∧
    acceptMH logπ current candidate logu = false ∧
    metropolisStep logπ current candidate logu = current ∧
    (recordStep logπ trace current candidate logu).length = trace.length + 1 := by
  have hratio : acceptanceLogRatio logπ current candidate = .negInf := by
    simp [acceptanceLogRatio, hcand]
  have hacc : acceptMH logπ current candidate logu = false := by
    simp [acceptMH, hratio, loguLtRatio]
  refine ⟨fun x hx => by simp [halfNormalLogp, hx], hratio, hacc, ?_, ?_⟩
  · simp [metropolisStep, hacc]
  · simp [recordStep]

/-- Witness for `out_of_support_rejected`: candidate `-1` for the half-normal
target has `-infinity` log-density and is rejected from current state `0`. -/
theorem out_of_support_rejected_witness :
    (∀ x : ℚ, x < 0 → halfNormalLogp x = .negInf) ∧
    acceptanceLogRatio halfNormalLogp (0 : ℚ) (-1) = .negInf ∧
    acceptMH halfNormalLogp (0 : ℚ) (-1) (-1) = false ∧
    metropolisStep halfNormalLogp (0 : ℚ) (-1) (-1) = 0 ∧
    (recordStep halfNormalLogp [] (0 : ℚ) (-1) (-1)).length
      = ([] : List (Draw ℚ)).length + 1 :=
  out_of_support_rejected halfNormalLogp 0 (-1) (-1) []
    (by norm_num [halfNormalLogp])

/-! ### Claim C9: antisymmetry of the acceptance log ratio -/

/-- Claim C9: for every pair of states with finite log-densities `a` and `b`,
the symmetric-proposal acceptance log ratio is `log π(candidate) − log π(current)`
and is antisymmetric: swapping the roles negates it. -/
theorem acceptance_log_ratio_antisymm {σ : Type} (logπ : σ → LogDensity ℚ)
    (x y : σ) (a b : ℚ) (hx : logπ x = .finite a) (hy : logπ y = .finite b) :
    acceptanceLogRatio logπ x y = .finite (b - a) ∧
    acceptanceLogRatio logπ y x = .finite (-(b - a)) := by
  constructor
  · simp [acceptanceLogRatio, hx, hy]
  · simp [acceptanceLogRatio, hx, hy]

/-- Witness for `acceptance_log_ratio_antisymm` on the half-normal target at
states `0` and `1`: the ratios are `-1/2` and `1/2`. -/
theorem acceptance_log_ratio_antisymm_witness :
    acceptanceLogRatio halfNormalLogp (0 : ℚ) 1 = .finite ((-1 / 2 : ℚ) - 0) ∧
    acceptanceLogRatio halfNormalLogp (1 : ℚ) 0 = .finite (-((-1 / 2 : ℚ) - 0)) :=
  acceptance_log_ratio_antisymm halfNormalLogp 0 1 0 (-1 / 2)
    (by norm_num [halfNormalLogp]) (by norm_num [halfNormalLogp])

end BayesMixer

namespace BayesMixer

/-! ### HMC transitions and divergences (mcmc.ipynb "Divergences", spec §4.1/§7)

Modelled from the spec: the HMC accept/reject step is driven by the energy
error `ΔH = H(proposal) − H(current)`; an error above a fixed threshold flags a
divergence, rejects the proposal and continues the chain. -/

/-- Fixed divergence threshold on the energy error (spec: "a fixed threshold,
e.g. 1000"). -/
def divergenceThreshold : ℚ := 1000

/-- Whether an HMC transition's energy error flags a divergence. -/
def hmcDivergent (deltaH : ℚ) : Bool := decide (divergenceThreshold < deltaH)

/-- Modelled from the spec: one HMC transition.  On divergence the proposal is
rejected and the Draw is flagged; otherwise the Metropolis rule on the energy
error decides (`log u < -ΔH`).  Always returns the next state and exactly one
Draw. -/
def hmcTransition {σ : Type} (current candidate : σ) (deltaH logu : ℚ) :
    σ × Draw σ :=
  if hmcDivergent deltaH then (current, ⟨current, false, true⟩)
  else if logu < -deltaH then (candidate, ⟨candidate, true, false⟩)
  else (current, ⟨current, false, false⟩)

/-- One per-draw input of an HMC chain: proposed candidate, energy error of the
trajectory, and the log of the uniform variate. -/
structure HmcInput (σ : Type) where
  candidate : σ
  deltaH : ℚ
  logu : ℚ

/-- Modelled from the spec: the Chain Runner's sampling loop — every transition
appends its Draw to the Trace and the chain continues to the next input,
divergent or not. -/
def runHmcChain {σ : Type} (current : σ) : List (HmcInput σ) → σ × List (Draw σ)
  | [] => (current, [])
  | inp :: rest =>
    let step1 := hmcTransition current inp.candidate inp.deltaH inp.logu
    let tail := runHmcChain step1.1 rest
    (tail.1, step1.2 :: tail.2)

/-- Divergence summary of a Trace: the number of divergence-flagged Draws. -/
def divergenceCount {σ : Type} (trace : List (Draw σ)) : ℕ :=
  (trace.filter (fun d => d.divergent)).length

/-! ### Claim C6: divergences are recovered locally and only counted -/

/-- Claim C6: a transition whose energy error exceeds the divergence threshold
rejects the proposal and flags the Draw; the chain never terminates early — the
Trace holds one Draw per input — and divergences surface only as the count of
flagged transitions. -/
theorem divergence_recovered {σ : Type} (init : σ) (inputs : List (HmcInput σ))
    (current candidate : σ) (deltaH logu : ℚ)
    (hdiv : hmcDivergent deltaH = true) :
    hmcTransition current candidate deltaH logu = (current, ⟨current, false, true⟩) ∧
    (runHmcChain init inputs).2.length = inputs.length ∧
    divergenceCount (runHmcChain init inputs).2
      = (inputs.filter (fun i => hmcDivergent i.deltaH)).length := by
  refine ⟨by simp [hmcTransition, hdiv], ?_, ?_⟩
  · induction inputs generalizing init with
    | nil => simp [runHmcChain]
    | cons inp rest ih => simp [runHmcChain, ih]
  · induction inputs generalizing init with
    | nil => simp [runHmcChain, divergenceCount]
    | cons inp rest ih =>
      have hflag : ((hmcTransition init inp.candidate inp.deltaH inp.logu).2).divergent
          = hmcDivergent inp.deltaH := by
        by_cases h1 : hmcDivergent inp.deltaH
        · simp [hmcTransition, h1]
        · by_cases h2 : inp.logu < -inp.deltaH <;>
            simp [hmcTransition, h1, h2]
      simp only [runHmcChain, divergenceCount, List.filter_cons, hflag] at *
      by_cases h1 : hmcDivergent inp.deltaH <;> simp [h1, ih]

/-- Witness for `divergence_recovered`: a one-input chain on `ℚ` whose energy
error `2000` exceeds the threshold; the Draw is flagged and counted. -/
theorem divergence_recovered_witness :
    hmcTransition (0 : ℚ) 5 2000 (-1) = ((0 : ℚ), ⟨0, false, true⟩) ∧
    (runHmcChain (0 : ℚ) [⟨5, 2000, -1⟩]).2.length
      = ([⟨5, 2000, -1⟩] : List (HmcInput ℚ)).length ∧
    divergenceCount (runHmcChain (0 : ℚ) [⟨5, 2000, -1⟩]).2
      = (([⟨5, 2000, -1⟩] : List (HmcInput ℚ)).filter
          (fun i => hmcDivergent i.deltaH)).length :=
  divergence_recovered 0 [⟨5, 2000, -1⟩] 0 5 2000 (-1)
    (by norm_num [hmcDivergent, divergenceThreshold])

end BayesMixer

namespace BayesMixer

/-! ### NUTS trajectory expansion (slides/mcmc.md "No U-Turn Sampler", spec §4.1)

Modelled from the spec: the slides only name NUTS; the doubling loop is modelled
from the spec's description — at each doubling the trajectory is extended and
the U-turn / divergence criterion is checked; expansion stops on the criterion
or at the `max_tree_depth` ceiling, the latter recorded as a warning, not an
error. -/

/-- Outcome of one NUTS trajectory expansion: how many doublings were
performed and whether the `max_tree_depth` ceiling was reached (a diagnostic
flag on the Draw, not an error). -/
structure NutsResult where
  doublings : ℕ
  reachedMaxDepth : Bool
deriving DecidableEq, Repr

/-- Modelled from the spec: the doubling loop.  `stop j` is the termination
criterion (U-turn or divergence) evaluated on the trajectory after doubling
`j`; the fuel argument is the remaining depth budget, so recursion is
structural and expansion terminates for every initial state. -/
def nutsExpandAux (stop : ℕ → Bool) : ℕ → ℕ → NutsResult
  | 0, j => ⟨j, true⟩
  | fuel + 1, j => if stop j then ⟨j + 1, false⟩ else nutsExpandAux stop fuel (j + 1)

/-- Modelled from the spec: expand the trajectory from depth `0` with a depth
budget of `maxTreeDepth` doublings. -/
def nutsExpand (stop : ℕ → Bool) (maxTreeDepth : ℕ) : NutsResult :=
  nutsExpandAux stop maxTreeDepth 0

lemma nutsExpandAux_doublings_le (stop : ℕ → Bool) (fuel j : ℕ) :
    (nutsExpandAux stop fuel j).doublings ≤ fuel + j := by
  induction fuel generalizing j with
  | zero => simp [nutsExpandAux]
  | succ f ih =>
    by_cases h : stop j
    · simp [nutsExpandAux, h]
      omega
    · simp only [nutsExpandAux, h, if_neg, Bool.false_eq_true, if_false]
      have := ih (j + 1)
      omega

lemma nutsExpandAux_max_iff (stop : ℕ → Bool) (fuel j : ℕ) :
    (nutsExpandAux stop fuel j).reachedMaxDepth = true ↔
      ∀ k, k < fuel → stop (j + k) = false := by
  induction fuel generalizing j with
  | zero => simp [nutsExpandAux]
  | succ f ih =>
    by_cases h : stop j
    · simp only [nutsExpandAux, h, if_true]
      constructor
      · intro hcontra
        exact absurd hcontra (by simp)
      · intro hall
        have := hall 0 (by omega)
        simp [h] at this
    · simp only [nutsExpandAux, h, Bool.false_eq_true, if_false, ih (j + 1)]
      constructor
      · intro hall k hk
        rcases Nat.eq_zero_or_pos k with rfl | hpos
        · simpa using (Bool.not_eq_true _).mp h
        · have := hall (k - 1) (by omega)
          have hrw : j + 1 + (k - 1) = j + k := by omega
          rwa [hrw] at this
      · intro hall k hk
        have := hall (k + 1) (by omega)
        rwa [show j + (k + 1) = j + 1 + k by omega] at this

/-! ### Claim C8: NUTS expansion is bounded by `max_tree_depth` -/

/-- Claim C8: for every termination criterion (hence every initial state and
momentum draw) and every depth ceiling, trajectory expansion terminates after
at most `maxTreeDepth` doublings, and the ceiling flag — a recorded warning,
not an error — is set exactly when no U-turn/divergence stopped expansion
earlier. -/
theorem nuts_expansion_bounded (stop : ℕ → Bool) (maxTreeDepth : ℕ) :
    (nutsExpand stop maxTreeDepth).doublings ≤ maxTreeDepth ∧
    ((nutsExpand stop maxTreeDepth).reachedMaxDepth = true ↔
      ∀ k, k < maxTreeDepth → stop k = false) := by
  constructor
  · have := nutsExpandAux_doublings_le stop maxTreeDepth 0
    simpa [nutsExpand] using this
  · have := nutsExpandAux_max_iff stop maxTreeDepth 0
    simpa [nutsExpand] using this

/-- Witness for `nuts_expansion_bounded`: a trajectory that never U-turns hits
the default ceiling of 10 doublings with the warning flag set. -/
theorem nuts_expansion_bounded_witness :
    (nutsExpand (fun _ => false) 10).doublings ≤ 10 ∧
    ((nutsExpand (fun _ => false) 10).reachedMaxDepth = true ↔
      ∀ k, k < 10 → (fun _ => false) k = false) :=
  nuts_expansion_bounded (fun _ => false) 10

end BayesMixer

namespace BayesMixer

/-! ### Multi-chain orchestration (mcmc.ipynb `pm.sample(..., chains=6, cores=4,
random_seed=random_seed)`, spec §4.4/§5)

Modelled from the spec: each chain owns an RNG stream derived deterministically
from the base seed and the chain index, chains share no mutable state, and the
parallel and sequential execution orders must produce identical Ensembles.  A
small linear-congruential generator drives a concrete random-walk Metropolis
chain on `ℤ` so every run is an explicit function of its seed. -/

/-- Linear congruential pseudo-random step (glibc multiplier, modulus `2³¹`). -/
def lcg (s : ℕ) : ℕ := (s * 1103515245 + 12345) % 2 ^ 31

/-- Modelled from the spec: the per-chain seed, derived deterministically from
the base seed and the chain index only. -/
def chainSeed (base i : ℕ) : ℕ := lcg (base + i * 65537)

/-- Unnormalised target density `π(x) = 1/(1+x²)` on the integer lattice —
positive everywhere, so acceptance can be decided by cross-multiplying instead
of taking logarithms. -/
def targetDen (x : ℤ) : ℚ := 1 / (1 + (x : ℚ) ^ 2)

/-- One random-walk Metropolis step on `ℤ`: the RNG decides the proposal
direction and the uniform variate `u`; accept iff `u · π(current) < π(proposal)`. -/
def mcStep (sx : ℕ × ℤ) : ℕ × ℤ :=
  let s1 := lcg sx.1
  let prop := sx.2 + (if s1 % 2 = 0 then 1 else -1)
  let s2 := lcg s1
  let u : ℚ := (s2 % 1024 : ℕ) / 1024
  (s2, if u * targetDen sx.2 < targetDen prop then prop else sx.2)

/-- Draws produced by iterating `mcStep` a fixed number of times. -/
def runChainAux : ℕ → ℕ × ℤ → List ℤ
  | 0, _ => []
  | k + 1, sx =>
    let sx1 := mcStep sx
    sx1.2 :: runChainAux k sx1

/-- One complete chain: `len` draws from initial state `0`, fully determined by
its seed. -/
def runChain (seed len : ℕ) : List ℤ := runChainAux len (seed, 0)

/-- Modelled from the spec: parallel execution — the `C` chains are independent,
so the Ensemble is the independent map of `runChain` over the chain indices. -/
def runEnsemblePar (base C len : ℕ) : List (List ℤ) :=
  (List.range C).map (fun i => runChain (chainSeed base i) len)

/-- Modelled from the spec: strictly sequential execution — chains are run one
after another, each appended to the Ensemble when it completes. -/
def runEnsembleSeq (base : ℕ) : ℕ → ℕ → List (List ℤ)
  | 0, _ => []
  | C + 1, len => runEnsembleSeq base C len ++ [runChain (chainSeed base C) len]

/-! ### Claim C7: seed-determinism and parallel/sequential equivalence -/

/-- Claim C7: for every base seed, chain count and length, sequential and
parallel execution produce identical Ensembles, and chain `i` of the Ensemble
is exactly `runChain` of the stream derived from the base seed and `i` — so a
rerun with the same base seed and chain count reproduces the Ensemble
bit-for-bit and no chain depends on any other. -/
theorem ensemble_par_eq_seq (base C len i : ℕ) (hi : i < C) :
    runEnsembleSeq base C len = runEnsemblePar base C len ∧
    (runEnsemblePar base C len)[i]? = some (runChain (chainSeed base i) len) := by
  constructor
  · clear hi
    induction C with
    | zero => simp [runEnsembleSeq, runEnsemblePar]
    | succ c ih =>
      rw [runEnsembleSeq, ih, runEnsemblePar, runEnsemblePar, List.range_succ,
        List.map_append, List.map_cons, List.map_nil]
  · rw [runEnsemblePar, List.getElem?_map, List.getElem?_range hi]
    rfl

/-- Witness for `ensemble_par_eq_seq`: base seed `42`, four chains of length
three, chain index `2`. -/
theorem ensemble_par_eq_seq_witness :
    runEnsembleSeq 42 4 3 = runEnsemblePar 42 4 3 ∧
    (runEnsemblePar 42 4 3)[2]? = some (runChain (chainSeed 42 2) 3) :=
  ensemble_par_eq_seq 42 4 3 2 (by norm_num)

end BayesMixer

namespace BayesMixer

/-! ### Competence Registry (mcmc.ipynb "Step methods" prose, spec §4.2)

Modelled from the spec: PyMC's per-step-method `Competence` class methods are
not part of the repository; the registry is modelled from the notebook's prose
(scores 0 "incompatible" to 3 "ideal", defaults binary → BinaryMetropolis,
discrete → Metropolis, continuous → NUTS) together with the spec's
gradient-availability distinction, and is consulted only for variables the
caller left unassigned. -/

/-- Support classification of a random variable. -/
inductive Support where
  | binary
  | discrete
  | continuousUnbounded
  | continuousBounded
deriving DecidableEq, Repr, Fintype

/-- A variable descriptor: support class plus gradient availability. -/
structure VarDescriptor where
  support : Support
  gradientAvailable : Bool
deriving DecidableEq, Repr, Fintype

/-- The step-method variants the registry chooses between. -/
inductive StepMethodKind where
  | binaryMetropolis
  | metropolis
  | nuts
deriving DecidableEq, Repr, Fintype

/-- The ordinal competence scale from the notebook: 0 incompatible, 1
compatible, 2 better, 3 ideal. -/
inductive CompetenceLevel where
  | incompatible
  | compatible
  | better
  | ideal
deriving DecidableEq, Repr, Fintype

/-- Numeric value of a competence level on the 0–3 scale. -/
def CompetenceLevel.score : CompetenceLevel → ℕ
  | .incompatible => 0
  | .compatible => 1
  | .better => 2
  | .ideal => 3

/-- Whether a descriptor is continuous (bounded or unbounded). -/
def VarDescriptor.isContinuous (d : VarDescriptor) : Bool :=
  match d.support with
  | .continuousUnbounded => true
  | .continuousBounded => true
  | _ => false

/-- Modelled from the spec: each step method's competence for a descriptor.
`BinaryMetropolis` is ideal exactly on binary variables, plain Metropolis is
compatible with everything, and NUTS is ideal exactly on continuous variables
with a gradient available. -/
def competence : StepMethodKind → VarDescriptor → CompetenceLevel
  | .binaryMetropolis, d => if d.support = .binary then .ideal else .incompatible
  | .metropolis, _ => .compatible
  | .nuts, d => if d.isContinuous && d.gradientAvailable then .ideal else .incompatible

/-- The registry's candidate list. -/
def stepMethods : List StepMethodKind := [.binaryMetropolis, .metropolis, .nuts]

/-- Modelled from the spec: the default assignment picks the step method with
the highest competence score for the descriptor. -/
def defaultStepMethod (d : VarDescriptor) : StepMethodKind :=
  (stepMethods.argmax (fun m => (competence m d).score)).getD .metropolis

/-- A model variable: a name and its descriptor. -/
structure ModelVariable where
  name : String
  descr : VarDescriptor

/-- Modelled from the spec: the registry is consulted only for variables the
caller's explicit assignment does not cover. -/
def assignStepMethod (explicitAssign : String → Option StepMethodKind)
    (v : ModelVariable) : StepMethodKind :=
  match explicitAssign v.name with
  | some m => m
  | none => defaultStepMethod v.descr

/-! ### Claim C2: the default assignment policy -/

/-- Claim C2: the default assignment is a total function of the descriptor —
binary variables get `BinaryMetropolis`, discrete get Metropolis, continuous
with gradient get NUTS and continuous without gradient get Metropolis; the
chosen method always scores at least as high as every other method on the 0–3
competence scale; and the registry is bypassed exactly on variables with an
explicit caller assignment. -/
theorem competence_registry_policy
    (explicitAssign : String → Option StepMethodKind) (v : ModelVariable)
    (m : StepMethodKind) :
    (∀ g, defaultStepMethod ⟨.binary, g⟩ = .binaryMetropolis) ∧
    (∀ g, defaultStepMethod ⟨.discrete, g⟩ = .metropolis) ∧
    defaultStepMethod ⟨.continuousUnbounded, true⟩ = .nuts ∧
    defaultStepMethod ⟨.continuousBounded, true⟩ = .nuts ∧
    defaultStepMethod ⟨.continuousUnbounded, false⟩ = .metropolis ∧
    defaultStepMethod ⟨.continuousBounded, false⟩ = .metropolis ∧
    (∀ d m2, (competence m2 d).score ≤ (competence (defaultStepMethod d) d).score) ∧
    (explicitAssign v.name = some m → assignStepMethod explicitAssign v = m) ∧
    (explicitAssign v.name = none →
      assignStepMethod explicitAssign v = defaultStepMethod v.descr) := by
  refine ⟨by decide, by decide, by decide, by decide, by decide, by decide,
    by decide, ?_, ?_⟩
  · intro h
    simp [assignStepMethod, h]
  · intro h
    simp [assignStepMethod, h]

/-- Witness for `competence_registry_policy`: variable `p`, explicitly assigned
Metropolis by the caller. -/
theorem competence_registry_policy_witness :
    (∀ g, defaultStepMethod ⟨.binary, g⟩ = .binaryMetropolis) ∧
    (∀ g, defaultStepMethod ⟨.discrete, g⟩ = .metropolis) ∧
    defaultStepMethod ⟨.continuousUnbounded, true⟩ = .nuts ∧
    defaultStepMethod ⟨.continuousBounded, true⟩ = .nuts ∧
    defaultStepMethod ⟨.continuousUnbounded, false⟩ = .metropolis ∧
    defaultStepMethod ⟨.continuousBounded, false⟩ = .metropolis ∧
    (∀ d m2, (competence m2 d).score ≤ (competence (defaultStepMethod d) d).score) ∧
    ((fun n => if n = "p" then some StepMethodKind.metropolis else none) "p"
        = some StepMethodKind.metropolis →
      assignStepMethod (fun n => if n = "p" then some StepMethodKind.metropolis else none)
        ⟨"p", ⟨.binary, false⟩⟩ = StepMethodKind.metropolis) ∧
    ((fun n => if n = "p" then some StepMethodKind.metropolis else none) "p" = none →
      assignStepMethod (fun n => if n = "p" then some StepMethodKind.metropolis else none)
        ⟨"p", ⟨.binary, false⟩⟩ = defaultStepMethod ⟨.binary, false⟩) :=
  competence_registry_policy
    (fun n => if n = "p" then some StepMethodKind.metropolis else none)
    ⟨"p", ⟨.binary, false⟩⟩ StepMethodKind.metropolis

end BayesMixer

namespace BayesMixer

/-! ### Auto-transformation (pymc_intro.ipynb "Auto-transformation" and
`value_vars`)

Modelled from the notebook: `sigma ~ HalfNormal` is constrained to the
nonnegative half-line, so PyMC samples the log-transformed value variable
`sigma_log__` on the unconstrained scale and back-transforms each draw with
`exp`; auto-transformed variables are omitted from user-facing summaries. -/

open Classical in
/-- Modelled from the notebook: the half-normal log-density over `ℝ` —
`-infinity` (the `pm.logp(sigma, -1)` behaviour) below the support, finite on
it. -/
noncomputable def halfNormalLogpR (x : ℝ) : LogDensity ℝ :=
  if x < 0 then .negInf else .finite (-(x ^ 2) / 2)

/-- Back-transformation of the log-transformed value variable: a sampled
`sigma_log__` value `v` is reported as `sigma = exp v`. -/
noncomputable def backTransform (v : ℝ) : ℝ := Real.exp v

/-- Modelled from the notebook: the sampler's log-density input is the
transformed value variable — the untransformed density evaluated at the
back-transform, plus the log-Jacobian `v` of `exp`. -/
noncomputable def sigmaTransformedLogp (v : ℝ) : LogDensity ℝ :=
  match halfNormalLogpR (backTransform v) with
  | .negInf => .negInf
  | .finite l => .finite (l + v)

/-- The original (untransformed) support of `sigma`. -/
def sigmaSupport (x : ℝ) : Prop := 0 ≤ x

/-- A named model variable together with its auto-transformation status. -/
structure ModelVar where
  name : String
  autoTransformed : Bool
deriving DecidableEq, Repr

/-- Modelled from the notebook: `spin_rate_model.value_vars` — the variables the
log-density is actually a function of; `sigma` appears log-transformed. -/
def spinRateValueVars : List ModelVar := [⟨"mu", false⟩, ⟨"sigma_log__", true⟩]

/-- User-facing summary variables: auto-transformed value variables are
omitted. -/
def summaryNames (vs : List ModelVar) : List String :=
  (vs.filter (fun v => !v.autoTransformed)).map (fun v => v.name)

/-! ### Claim C10: constrained variables are sampled on the unconstrained scale -/

/-- Claim C10: for every value `v` of the transformed variable, the transformed
log-density is finite (even where the raw value `v` itself would be out of the
untransformed support), the reported draw `exp v` lies in `sigma`'s original
support, the untransformed log-density is `-infinity` below the support, and
auto-transformed value variables are omitted from the user-facing summary. -/
theorem auto_transform_unconstrained (v : ℝ) :
    sigmaTransformedLogp v = .finite (-(backTransform v ^ 2) / 2 + v) ∧
    sigmaTransformedLogp v ≠ .negInf ∧
    sigmaSupport (backTransform v) ∧
    (∀ x : ℝ, x < 0 → halfNormalLogpR x = .negInf) ∧
    (∀ mv, mv ∈ spinRateValueVars → mv.autoTransformed = true →
      mv.name ∉ summaryNames spinRateValueVars) := by
  have hpos : (0 : ℝ) < backTransform v := Real.exp_pos v
  have h1 : halfNormalLogpR (backTransform v) = .finite (-(backTransform v ^ 2) / 2) := by
    rw [halfNormalLogpR, if_neg (not_lt.mpr hpos.le)]
  have h2 : sigmaTransformedLogp v = .finite (-(backTransform v ^ 2) / 2 + v) := by
    rw [sigmaTransformedLogp, h1]
  refine ⟨h2, ?_, hpos.le, fun x hx => by rw [halfNormalLogpR, if_pos hx], by decide⟩
  rw [h2]
  intro hcontra
  exact LogDensity.noConfusion hcontra

/-- Witness for `auto_transform_unconstrained` at the transformed value
`v = -1`, whose raw pre-image `-1` is out of support while `exp (-1)` is in. -/
theorem auto_transform_unconstrained_witness :
    sigmaTransformedLogp (-1) = .finite (-(backTransform (-1) ^ 2) / 2 + (-1)) ∧
    sigmaTransformedLogp (-1) ≠ .negInf ∧
    sigmaSupport (backTransform (-1)) ∧
    (∀ x : ℝ, x < 0 → halfNormalLogpR x = .negInf) ∧
    (∀ mv, mv ∈ spinRateValueVars → mv.autoTransformed = true →
      mv.name ∉ summaryNames spinRateValueVars) :=
  auto_transform_unconstrained (-1)

end BayesMixer
